import Mathlib

/-!
Verification of the Open Telekom Cloud SWR registry adapter
(`src/pkg/reg/adapter/opentelekomcloud/adapter.go`).

The adapter's operations (`ListNamespaces`, `GetNamespace`, `PrepareForPush`,
`HealthCheck`) are embedded as pure Lean functions.  All interaction with the
outside world (HTTP request construction, transport, body reading, JSON
decoding) is threaded through an explicit `RemoteEnv` record describing the
outcomes the external collaborators produce, and every operation additionally
returns the trace of HTTP requests it issued, so that statements about
"number of creation calls" or "no remote call" are expressible.
-/

namespace OTC

/-! ## Model of the Go `regexp` fragment used by the adapter

`ListNamespaces` builds the pattern `".*" + strings.Replace(q, " ", "", -1) + ".*"`
and calls `regexp.MatchString(pattern, name)`.  We model the RE2 fragment these
patterns can fall in: sequences of atoms (a literal character or `.`), each
optionally followed by `*`.  Patterns containing other metacharacters
(`()[]{}|+?^$\`), a repetition operator with no operand, or a doubled
repetition operator are modelled as compile errors, matching Go's behaviour on
the pattern shapes exercised here.  `matchItems` is anchored (it matches the
whole subject); since every pattern the adapter builds starts and ends with
`.*`, Go's unanchored `MatchString` agrees with the anchored semantics. -/

inductive Atom where
  | lit (c : Char)
  | dot
  deriving DecidableEq

/-- A regex item: an atom together with a flag telling whether it is starred. -/
abbrev RegItem := Atom × Bool

def atomMatches : Atom → Char → Bool
  | .dot, _ => true
  | .lit c, d => c == d

/-- Anchored matching of a sequence of (possibly starred) atoms against a
character list. -/
def matchItems : List RegItem → List Char → Bool
  | [], [] => true
  | [], _ :: _ => false
  | (_, false) :: _, [] => false
  | (a, false) :: rest, c :: s => atomMatches a c && matchItems rest s
  | (a, true) :: rest, s =>
      matchItems rest s ||
        (match s with
         | [] => false
         | c :: s2 => atomMatches a c && matchItems ((a, true) :: rest) s2)
  termination_by items s => (s.length, items.length)

/-- Regexp metacharacters outside the modelled fragment. -/
def isMetaOther (c : Char) : Bool :=
  c == '(' || c == ')' || c == '[' || c == ']' || c == '{' || c == '}' ||
  c == '|' || c == '+' || c == '?' || c == '^' || c == '$' || c == '\\'

/-- A character with no regular-expression meaning. -/
def isLiteralChar (c : Char) : Bool :=
  !(c == '.') && !(c == '*') && !(isMetaOther c)

/-- The atom denoted by a single non-metacharacter pattern character. -/
def charAtom (c : Char) : Atom :=
  if c == '.' then Atom.dot else Atom.lit c

/-- Compile the continuation of a pattern after an atom `a` has been read:
a following `*` stars the atom; a doubled repetition operator or a
metacharacter outside the fragment is a compile error. -/
def parseAfterAtom (a : Atom) : List Char → Option (List RegItem)
  | [] => some [(a, false)]
  | c :: rest =>
    if c == '*' then
      match rest with
      | [] => some [(a, true)]
      | d :: rest2 =>
        if d == '*' then none
        else if isMetaOther d then none
        else (parseAfterAtom (charAtom d) rest2).map (fun items => (a, true) :: items)
    else if isMetaOther c then none
    else (parseAfterAtom (charAtom c) rest).map (fun items => (a, false) :: items)

/-- Compile a pattern of the modelled fragment; `none` is a compile error:
a leading repetition operator, a doubled repetition operator, or a
metacharacter outside the fragment. -/
def parseItems : List Char → Option (List RegItem)
  | [] => some []
  | c :: rest =>
    if c == '*' then none
    else if isMetaOther c then none
    else parseAfterAtom (charAtom c) rest

/-- Model of Go `regexp.MatchString(pat, s)`: compile error or match result. -/
def goRegexpMatchString (pat s : String) : Except String Bool :=
  match parseItems pat.data with
  | none => .error "error parsing regexp"
  | some items => .ok (matchItems items s.data)

/-- `containsSub s sub` holds when `sub` occurs in `s` as a contiguous
substring. -/
def containsSub : List Char → List Char → Bool
  | [], sub => sub.isEmpty
  | c :: rest, sub => sub.isPrefixOf (c :: rest) || containsSub rest sub

/-! ## String helpers mirroring the Go standard-library calls -/

/-- Model of Go `strings.Replace(s, " ", "", -1)`: remove every space
character (only U+0020; other whitespace is untouched). -/
def stripSpaces (s : String) : String :=
  ⟨s.data.filter (fun c => !(c == ' '))⟩

/-- Model of Go `strings.Split(s, "/")`: split on every slash; always returns
at least one (possibly empty) segment. -/
def splitSlash : List Char → List (List Char)
  | [] => [[]]
  | c :: rest =>
    let r := splitSlash rest
    if c == '/' then [] :: r
    else
      match r with
      | [] => [[c]]
      | seg :: segs => (c :: seg) :: segs

/-- The candidate namespace `PrepareForPush` derives from a repository name:
`paths := strings.Split(name, "/")`; the first element if any, else `""`. -/
def candidateNamespace (repoName : String) : String :=
  match splitSlash repoName.data with
  | [] => ""
  | seg :: _ => ⟨seg⟩

/-! ## Data model (`model` package and the adapter's wire types) -/

/-- A JSON-ish metadata value (`interface{}` in the Go code: here either an
integer field or a string field of the remote record). -/
inductive MetaValue where
  | int (i : Int)
  | str (s : String)
  deriving DecidableEq

/-- Wire type `otcNamespace`: one remote namespace record. -/
structure otcNamespace where
  id : Int
  name : String
  creatorName : String
  domainPublic : Int
  auth : Int
  domainName : String
  userCount : Int
  imageCount : Int
  deriving DecidableEq

/-- `otcNamespace.metadata()`: the fixed key/value map built from a record.
Go builds a `map[string]interface{}` by seven inserts of distinct keys; we
keep the insertion sequence as an association list. -/
def otcNamespace.metadata (ns : otcNamespace) : List (String × MetaValue) :=
  [("id", .int ns.id),
   ("creator_name", .str ns.creatorName),
   ("domain_public", .int ns.domainPublic),
   ("auth", .int ns.auth),
   ("domain_name", .str ns.domainName),
   ("user_count", .int ns.userCount),
   ("image_count", .int ns.imageCount)]

/-- Wire type `otcNamespaceList` (`{"namespaces": [...]}`). -/
structure otcNamespaceList where
  Namespace : List otcNamespace
  deriving DecidableEq

/-- `model.Namespace`: what the adapter hands back to the host. -/
structure Namespace where
  name : String
  metadata : List (String × MetaValue)
  deriving DecidableEq

/-- `model.NamespaceQuery`. -/
structure NamespaceQuery where
  name : String
  deriving DecidableEq

/-- `model.Repository` (only the field the adapter reads). -/
structure Repository where
  name : String
  deriving DecidableEq

/-- `model.ResourceMetadata` (only the field the adapter reads). -/
structure ResourceMetadata where
  repository : Repository
  deriving DecidableEq

/-- `model.Resource` (only the field the adapter reads). -/
structure Resource where
  metadata : ResourceMetadata
  deriving DecidableEq

/-- `model.Healthy`. -/
def Healthy : String := "healthy"

/-! ## Environment: outcomes of the external collaborators

An HTTP response as the adapter observes it: the status code, the data
`io.ReadAll` yields for the body, and the error `io.ReadAll` yields (Go
returns both the data read so far and the error). -/
structure Response where
  statusCode : Nat
  body : String
  readErr : Option String
  deriving DecidableEq

/-- One HTTP request the adapter can issue. -/
inductive Request where
  | listNs
  | getNs (name : String)
  | createNs (name : String)
  deriving DecidableEq

def Request.isCreate : Request → Bool
  | .createNs _ => true
  | _ => false

/-- Outcomes of every external call the adapter makes: request construction
(`http.NewRequest`), transport (`client.Do`, an `Except.error` is a transport
failure), and JSON decoding (`json.Unmarshal`) of list and single-record
bodies.  The adapter itself is deterministic given this record. -/
structure RemoteEnv where
  listReqErr : Option String
  listResult : Except String Response
  getReqErr : String → Option String
  getResult : String → Except String Response
  createReqErr : Option String
  createResult : String → Except String Response
  unmarshalList : String → Except String otcNamespaceList
  unmarshalNs : String → Except String otcNamespace

/-- The error string `fmt.Errorf("[%d][%s]", code, string(body))` the adapter
builds for a status outside [200,300). -/
def statusErr (code : Nat) (body : String) : String :=
  "[" ++ toString code ++ "][" ++ body ++ "]"

/-! ## `ListNamespaces` -/

/-- The filtering loop of `ListNamespaces`: translate each record, test its
name against the pattern, keep matches; a pattern error returns the results
accumulated so far with a nil error. -/
def filterLoop (reg : String) (acc : List Namespace) :
    List otcNamespace → List Namespace × Option String
  | [] => (acc, none)
  | nd :: rest =>
    match goRegexpMatchString reg nd.name with
    | .error _ => (acc, none)
    | .ok b =>
      filterLoop reg (if b then acc ++ [⟨nd.name, nd.metadata⟩] else acc) rest

/-- `adapter.ListNamespaces`: result value, error, and the requests issued. -/
def ListNamespaces (env : RemoteEnv) (query : NamespaceQuery) :
    (List Namespace × Option String) × List Request :=
  match env.listReqErr with
  | some e => (([], some e), [])
  | none =>
    match env.listResult with
    | .error e => (([], some e), [Request.listNs])
    | .ok resp =>
      if 300 ≤ resp.statusCode ∨ resp.statusCode < 200 then
        (([], some (statusErr resp.statusCode resp.body)), [Request.listNs])
      else
        match resp.readErr with
        | some e => (([], some e), [Request.listNs])
        | none =>
          match env.unmarshalList resp.body with
          | .error e => (([], some e), [Request.listNs])
          | .ok nsData =>
            let reg := ".*" ++ stripSpaces query.name ++ ".*"
            (filterLoop reg [] nsData.Namespace, [Request.listNs])

/-! ## `GetNamespace` -/

/-- The sentinel `&model.Namespace{Name: "", Metadata: make(map[...])}` the
lookup returns alongside any error. -/
def nsSentinel : Namespace := ⟨"", []⟩

/-- The part of `GetNamespace` after `http.NewRequest` succeeded: dispatch,
status check, body read, decode. -/
def getNamespaceResp (env : RemoteEnv) (n : String) : Namespace × Option String :=
  match env.getResult n with
  | .error e => (nsSentinel, some e)
  | .ok resp =>
    if 300 ≤ resp.statusCode ∨ resp.statusCode < 200 then
      (nsSentinel, some (statusErr resp.statusCode resp.body))
    else
      match resp.readErr with
      | some e => (nsSentinel, some e)
      | none =>
        match env.unmarshalNs resp.body with
        | .error e => (nsSentinel, some e)
        | .ok nd => (⟨nd.name, nd.metadata⟩, none)

/-- `adapter.GetNamespace`: result value, error, and the requests issued. -/
def GetNamespace (env : RemoteEnv) (n : String) :
    (Namespace × Option String) × List Request :=
  match env.getReqErr n with
  | some e => ((nsSentinel, some e), [])
  | none => (getNamespaceResp env n, [Request.getNs n])

/-! ## `PrepareForPush` -/

/-- First loop of `PrepareForPush`: per resource, derive the candidate
namespace, look it up, abort on any lookup error, skip candidates whose
lookup returned a namespace with the same name, and collect the rest into the
(deduplicating) set `acc`.  Go's set is a map; we keep insertion order. -/
def prepCollect (env : RemoteEnv) :
    List Resource → List String → Except String (List String) × List Request
  | [], acc => (.ok acc, [])
  | r :: rest, acc =>
    let n := candidateNamespace r.metadata.repository.name
    let g := GetNamespace env n
    match g.1.2 with
    | some e => (.error e, g.2)
    | none =>
      if g.1.1.name = n then
        let cont := prepCollect env rest acc
        (cont.1, g.2 ++ cont.2)
      else
        let cont := prepCollect env rest (if n ∈ acc then acc else acc ++ [n])
        (cont.1, g.2 ++ cont.2)

/-- Status classification of one create-namespace response (`nil` error on a
2xx status, the `[code][body]` error otherwise, the transport error if the
dispatch failed). -/
def createResp (env : RemoteEnv) (n : String) : Option String :=
  match env.createResult n with
  | .error e => some e
  | .ok resp =>
    if 300 ≤ resp.statusCode ∨ resp.statusCode < 200 then
      some (statusErr resp.statusCode resp.body)
    else none

/-- Second loop of `PrepareForPush`: a create request per collected namespace,
aborting at the first failure.  (`json.Marshal` of the one-field payload
cannot fail; `http.NewRequest` failure is `createReqErr`.) -/
def prepCreate (env : RemoteEnv) : List String → Option String × List Request
  | [] => (none, [])
  | n :: rest =>
    match env.createReqErr with
    | some e => (some e, [])
    | none =>
      match createResp env n with
      | some e => (some e, [Request.createNs n])
      | none =>
        let cont := prepCreate env rest
        (cont.1, Request.createNs n :: cont.2)

/-- `adapter.PrepareForPush`: error and the requests issued. -/
def PrepareForPush (env : RemoteEnv) (resources : List Resource) :
    Option String × List Request :=
  let col := prepCollect env resources []
  match col.1 with
  | .error e => (some e, col.2)
  | .ok names =>
    let c := prepCreate env names
    (c.1, col.2 ++ c.2)

/-! ## `HealthCheck` -/

/-- `adapter.HealthCheck`: always healthy, no error, no request. -/
def HealthCheck (_env : RemoteEnv) : (String × Option String) × List Request :=
  ((Healthy, none), [])

/-! ## A conforming remote service

Model of the remote SWR service as the external-interface section of the spec
describes it: `GET /dockyard/v2/namespaces/{name}` answers 200 with the
record when the namespace exists and a not-found status otherwise;
`POST /dockyard/v2/namespaces` answers 200 and makes the namespace exist.
The remote state is the list of existing records; a successful get hands the
name to `unmarshalNs`, which recovers the record, so decode is consistent
with the server's bodies. -/

def findByName (remote : List otcNamespace) (n : String) : Option otcNamespace :=
  remote.find? (fun r => r.name == n)

def serverEnv (remote : List otcNamespace) : RemoteEnv where
  listReqErr := none
  listResult := .ok ⟨200, "", none⟩
  getReqErr := fun _ => none
  getResult := fun n =>
    match findByName remote n with
    | some _ => .ok ⟨200, n, none⟩
    | none => .ok ⟨404, "not found", none⟩
  createReqErr := none
  createResult := fun _ => .ok ⟨200, "", none⟩
  unmarshalList := fun _ => .ok ⟨[]⟩
  unmarshalNs := fun body =>
    match findByName remote body with
    | some r => .ok r
    | none => .error "unexpected end of JSON input"

/-- The record a conforming remote holds after a create request for `n`. -/
def freshRecord (n : String) : otcNamespace := ⟨0, n, "", 0, 0, "", 0, 0⟩

/-- The remote state after the requests of a trace have been served: each
create request adds the namespace. -/
def applyTrace (remote : List otcNamespace) : List Request → List otcNamespace
  | [] => remote
  | .createNs n :: tr => applyTrace (remote ++ [freshRecord n]) tr
  | _ :: tr => applyTrace remote tr

/-! ## Definitions following the words of the spec and the claims

These are deliberately written from the specification text, to be compared
with the definitions embedded from the source. -/

/-- Follows the claim's words: the query with all whitespace removed. -/
def stripAllWhitespace (s : String) : String :=
  ⟨s.data.filter (fun c => !c.isWhitespace)⟩

/-- Follows the claim's words: the subset of the remote records whose name
contains the whitespace-stripped query as a substring, in original order. -/
def claimedListResult (q : String) (records : List otcNamespace) : List Namespace :=
  records.filterMap (fun nd =>
    if containsSub nd.name.data (stripAllWhitespace q).data
    then some ⟨nd.name, nd.metadata⟩ else none)

/-- Follows the claim's words: the first non-empty segment of the repository
name split on a slash. -/
def firstNonEmptySegment (s : String) : String :=
  match (splitSlash s.data).find? (fun seg => !seg.isEmpty) with
  | some seg => ⟨seg⟩
  | none => ""

/-- The fixed metadata key set of the spec's invariant. -/
def metadataKeys : List String :=
  ["id", "creator_name", "domain_public", "auth", "domain_name",
   "user_count", "image_count"]

/-- Number of create requests for namespace `n` in a trace. -/
def countCreate (n : String) : List Request → Nat
  | [] => 0
  | .createNs m :: tr => (if m = n then 1 else 0) + countCreate n tr
  | _ :: tr => countCreate n tr

/-! ## Lemmas about the regex model -/

/-- The items a pattern of literal characters compiles to. -/
def litItems (q : List Char) : List RegItem :=
  q.map (fun c => (Atom.lit c, false))

@[simp] theorem litItems_nil : litItems [] = [] := rfl

@[simp] theorem litItems_cons (c : Char) (q : List Char) :
    litItems (c :: q) = (Atom.lit c, false) :: litItems q := rfl

theorem isLiteralChar_spec (c : Char) (h : isLiteralChar c = true) :
    (c == '.') = false ∧ (c == '*') = false ∧ isMetaOther c = false := by
  simp only [isLiteralChar, Bool.and_eq_true, Bool.not_eq_true'] at h
  exact ⟨h.1.1, h.1.2, h.2⟩

theorem matchItems_starDot_all (s : List Char) :
    matchItems [(Atom.dot, true)] s = true := by
  induction s with
  | nil => simp [matchItems]
  | cons c s ih => simp [matchItems, atomMatches, ih]

theorem matchItems_litItems (q s : List Char) :
    matchItems (litItems q ++ [(Atom.dot, true)]) s = q.isPrefixOf s := by
  induction q generalizing s with
  | nil => simp [matchItems_starDot_all, List.isPrefixOf]
  | cons c q ih =>
    cases s with
    | nil => simp [matchItems, List.isPrefixOf]
    | cons d s => simp [matchItems, List.isPrefixOf, atomMatches, ih]

theorem matchItems_wrapped (q s : List Char) :
    matchItems ((Atom.dot, true) :: (litItems q ++ [(Atom.dot, true)])) s =
      containsSub s q := by
  induction s with
  | nil =>
    simp [matchItems, containsSub, matchItems_litItems]
    cases q <;> simp [List.isPrefixOf, List.isEmpty]
  | cons c s ih =>
    simp [matchItems, containsSub, matchItems_litItems, atomMatches, ih]

theorem parseAfterAtom_litBody (q : List Char) (a : Atom)
    (hq : q.all isLiteralChar = true) :
    parseAfterAtom a (q ++ ['.', '*']) =
      some ((a, false) :: (litItems q ++ [(Atom.dot, true)])) := by
  induction q generalizing a with
  | nil => rfl
  | cons c q ih =>
    rw [List.all_cons, Bool.and_eq_true] at hq
    obtain ⟨hdot, hstar, hmeta⟩ := isLiteralChar_spec c hq.1
    have hca : charAtom c = Atom.lit c := by simp [charAtom, hdot]
    cases q with
    | nil =>
      simp [parseAfterAtom, hstar, hmeta, hca,
        show isMetaOther '.' = false from by decide,
        show charAtom '.' = Atom.dot from by decide]
    | cons d q2 =>
      have ih2 : ∀ a, parseAfterAtom a (d :: (q2 ++ ['.', '*'])) =
          some ((a, false) :: (litItems (d :: q2) ++ [(Atom.dot, true)])) :=
        fun a => ih a hq.2
      simp [parseAfterAtom, hstar, hmeta, hca]
      rw [ih2]
      simp

theorem parseItems_wrapped (q : List Char) (hq : q.all isLiteralChar = true) :
    parseItems ('.' :: '*' :: (q ++ ['.', '*'])) =
      some ((Atom.dot, true) :: (litItems q ++ [(Atom.dot, true)])) := by
  cases q with
  | nil => rfl
  | cons c q' =>
    rw [List.all_cons, Bool.and_eq_true] at hq
    obtain ⟨hdot, hstar, hmeta⟩ := isLiteralChar_spec c hq.1
    have hca : charAtom c = Atom.lit c := by simp [charAtom, hdot]
    have hlit : ∀ a, parseAfterAtom a (q' ++ ['.', '*']) =
        some ((a, false) :: (litItems q' ++ [(Atom.dot, true)])) :=
      fun a => parseAfterAtom_litBody q' a hq.2
    simp [parseItems, parseAfterAtom, hstar, hmeta, hca,
      show isMetaOther '.' = false from by decide,
      show charAtom '.' = Atom.dot from by decide]
    rw [hlit]

/-! ## Lemmas about `ListNamespaces` -/

theorem containsSub_nil (s : List Char) : containsSub s [] = true := by
  cases s <;> simp [containsSub, List.isPrefixOf, List.isEmpty]

theorem filterLoop_parsed (reg : String) (items : List RegItem)
    (h : parseItems reg.data = some items) (records : List otcNamespace)
    (acc : List Namespace) :
    filterLoop reg acc records =
      (acc ++ records.filterMap (fun nd =>
        if matchItems items nd.name.data then some ⟨nd.name, nd.metadata⟩ else none),
       none) := by
  induction records generalizing acc with
  | nil => simp [filterLoop]
  | cons nd rest ih =>
    rw [filterLoop]
    simp only [goRegexpMatchString, h]
    cases hb : matchItems items nd.name.data <;>
      simp [hb, ih, List.filterMap_cons]

theorem filterLoop_badPattern (reg : String) (h : parseItems reg.data = none)
    (records : List otcNamespace) (acc : List Namespace) :
    filterLoop reg acc records = (acc, none) := by
  cases records <;> simp [filterLoop, goRegexpMatchString, h]

theorem filterLoop_mem (reg : String) (records : List otcNamespace)
    (acc : List Namespace) (ns : Namespace)
    (h : ns ∈ (filterLoop reg acc records).1) :
    ns ∈ acc ∨ ∃ nd ∈ records, ns = ⟨nd.name, nd.metadata⟩ := by
  induction records generalizing acc with
  | nil =>
    rw [filterLoop] at h
    exact .inl h
  | cons nd rest ih =>
    rw [filterLoop] at h
    cases hm : goRegexpMatchString reg nd.name with
    | error e =>
      rw [hm] at h
      exact .inl h
    | ok b =>
      rw [hm] at h
      rcases ih _ h with hacc | ⟨nd2, hmem, hns⟩
      · cases b with
        | false => exact .inl (by simpa using hacc)
        | true =>
          rcases (by simpa using hacc : ns ∈ acc ∨ ns = Namespace.mk nd.name nd.metadata)
            with h1 | h2
          · exact .inl h1
          · exact .inr ⟨nd, by simp, h2⟩
      · exact .inr ⟨nd2, List.mem_cons_of_mem _ hmem, hns⟩

/-! ## Lemmas about traces and the push-preparation loops -/

theorem GetNamespace_trace_noCreate (env : RemoteEnv) (m : String) :
    (GetNamespace env m).2.all (fun r => !r.isCreate) = true := by
  cases h : env.getReqErr m <;> simp [GetNamespace, h, Request.isCreate]

theorem prepCollect_trace_noCreate (env : RemoteEnv) (resources : List Resource)
    (acc : List String) :
    (prepCollect env resources acc).2.all (fun r => !r.isCreate) = true := by
  induction resources generalizing acc with
  | nil => simp [prepCollect]
  | cons r rest ih =>
    rw [prepCollect]
    split
    · next e heq =>
      have := GetNamespace_trace_noCreate env
        (candidateNamespace r.metadata.repository.name)
      simpa using this
    · split <;> simp [List.all_append, GetNamespace_trace_noCreate, ih]

theorem applyTrace_noCreate (tr : List Request) (remote : List otcNamespace)
    (h : tr.all (fun r => !r.isCreate) = true) : applyTrace remote tr = remote := by
  induction tr generalizing remote with
  | nil => rfl
  | cons req tr ih =>
    rw [List.all_cons, Bool.and_eq_true] at h
    cases req with
    | createNs n => simp [Request.isCreate] at h
    | listNs => simpa [applyTrace] using ih _ h.2
    | getNs m => simpa [applyTrace] using ih _ h.2

theorem countCreate_noCreate (n : String) (tr : List Request)
    (h : tr.all (fun r => !r.isCreate) = true) : countCreate n tr = 0 := by
  induction tr with
  | nil => rfl
  | cons req tr ih =>
    rw [List.all_cons, Bool.and_eq_true] at h
    cases req with
    | createNs m => simp [Request.isCreate] at h
    | listNs => simpa [countCreate] using ih h.2
    | getNs m => simpa [countCreate] using ih h.2

theorem countCreate_append (n : String) (a b : List Request) :
    countCreate n (a ++ b) = countCreate n a + countCreate n b := by
  induction a with
  | nil => simp [countCreate]
  | cons req a ih => cases req <;> simp [countCreate, ih, Nat.add_assoc]

theorem prepCreate_count_zero (env : RemoteEnv) (n : String) (names : List String)
    (h : n ∉ names) : countCreate n (prepCreate env names).2 = 0 := by
  induction names with
  | nil => rfl
  | cons m rest ih =>
    simp only [List.mem_cons, not_or] at h
    have hmn : ¬(m = n) := fun hh => h.1 hh.symm
    rw [prepCreate]
    cases hc : env.createReqErr with
    | some e => simp [countCreate]
    | none =>
      cases hr : createResp env m with
      | some e => simp [countCreate, hmn]
      | none => simp [countCreate, hmn, ih h.2]

theorem prepCreate_count_le_one (env : RemoteEnv) (names : List String)
    (h : names.Nodup) (n : String) :
    countCreate n (prepCreate env names).2 ≤ 1 := by
  induction names with
  | nil => simp [prepCreate, countCreate]
  | cons m rest ih =>
    rw [List.nodup_cons] at h
    rw [prepCreate]
    cases hc : env.createReqErr with
    | some e => simp [countCreate]
    | none =>
      cases hr : createResp env m with
      | some e =>
        by_cases hmn : m = n <;> simp [countCreate, hmn]
      | none =>
        by_cases hmn : m = n
        · subst hmn
          simp [countCreate, prepCreate_count_zero env m rest h.1]
        · simp [countCreate, hmn, ih h.2]

theorem prepCreate_mem (env : RemoteEnv) (names : List String) (n : String)
    (h : Request.createNs n ∈ (prepCreate env names).2) : n ∈ names := by
  induction names with
  | nil => simp [prepCreate] at h
  | cons m rest ih =>
    rw [prepCreate] at h
    cases hc : env.createReqErr with
    | some e => rw [hc] at h; simp at h
    | none =>
      rw [hc] at h
      cases hr : createResp env m with
      | some e =>
        rw [hr] at h
        simp at h
        simp [h]
      | none =>
        rw [hr] at h
        rcases (by simpa using h :
            n = m ∨ Request.createNs n ∈ (prepCreate env rest).2) with h1 | h2
        · simp [h1]
        · exact List.mem_cons_of_mem _ (ih h2)

theorem prepCollect_ok_spec (env : RemoteEnv) (resources : List Resource) :
    ∀ acc names, (prepCollect env resources acc).1 = .ok names →
      acc.Nodup →
      names.Nodup ∧ ∀ m ∈ names, m ∈ acc ∨
        ∃ r ∈ resources, candidateNamespace r.metadata.repository.name = m := by
  induction resources with
  | nil =>
    intro acc names h hnd
    rw [prepCollect] at h
    injection h with h1
    subst h1
    exact ⟨hnd, fun m hm => .inl hm⟩
  | cons r rest ih =>
    intro acc names h hnd
    rw [prepCollect] at h
    simp only [] at h
    cases hg : (GetNamespace env (candidateNamespace r.metadata.repository.name)).1.2 with
    | some e =>
      rw [hg] at h
      simp at h
    | none =>
      rw [hg] at h
      by_cases hname :
          (GetNamespace env (candidateNamespace r.metadata.repository.name)).1.1.name =
            candidateNamespace r.metadata.repository.name
      · rw [if_pos hname] at h
        obtain ⟨hnodup, hmem⟩ := ih acc names h hnd
        refine ⟨hnodup, fun m hm => ?_⟩
        rcases hmem m hm with hin | ⟨r2, hr2, hcand⟩
        · exact .inl hin
        · exact .inr ⟨r2, List.mem_cons_of_mem _ hr2, hcand⟩
      · rw [if_neg hname] at h
        have hacc2 : (if candidateNamespace r.metadata.repository.name ∈ acc then acc
            else acc ++ [candidateNamespace r.metadata.repository.name]).Nodup := by
          split
          · exact hnd
          · next hnin =>
            rw [List.nodup_append]
            exact ⟨hnd, List.nodup_singleton _,
              fun x hx hx2 => hnin (List.mem_singleton.mp hx2 ▸ hx)⟩
        obtain ⟨hnodup, hmem⟩ := ih _ names h hacc2
        refine ⟨hnodup, fun m hm => ?_⟩
        rcases hmem m hm with hin | ⟨r2, hr2, hcand⟩
        · by_cases hc2 : candidateNamespace r.metadata.repository.name ∈ acc
          · rw [if_pos hc2] at hin
            exact .inl hin
          · rw [if_neg hc2] at hin
            rcases List.mem_append.mp hin with hin1 | hin2
            · exact .inl hin1
            · exact .inr ⟨r, List.mem_cons_self r rest,
                (List.mem_singleton.mp hin2).symm⟩
        · exact .inr ⟨r2, List.mem_cons_of_mem _ hr2, hcand⟩

/-! ## Lemmas about the conforming remote service -/

theorem findByName_name (remote : List otcNamespace) (n : String)
    (r : otcNamespace) (hf : findByName remote n = some r) : r.name = n := by
  have := List.find?_some hf
  simpa using this

theorem GetNamespace_serverEnv_found (remote : List otcNamespace) (n : String)
    (r : otcNamespace) (hf : findByName remote n = some r) :
    GetNamespace (serverEnv remote) n =
      ((⟨r.name, r.metadata⟩, none), [Request.getNs n]) := by
  simp [GetNamespace, serverEnv, getNamespaceResp, hf]

theorem GetNamespace_serverEnv_missing (remote : List otcNamespace) (n : String)
    (hf : findByName remote n = none) :
    GetNamespace (serverEnv remote) n =
      ((nsSentinel, some (statusErr 404 "not found")), [Request.getNs n]) := by
  simp [GetNamespace, serverEnv, getNamespaceResp, hf]

theorem prepCollect_serverEnv_ok (remote : List otcNamespace)
    (resources : List Resource) :
    ∀ acc names, (prepCollect (serverEnv remote) resources acc).1 = .ok names →
      names = acc := by
  induction resources with
  | nil =>
    intro acc names h
    rw [prepCollect] at h
    injection h with h1
    exact h1.symm
  | cons r rest ih =>
    intro acc names h
    rw [prepCollect] at h
    simp only [] at h
    cases hf : findByName remote (candidateNamespace r.metadata.repository.name) with
    | none =>
      rw [GetNamespace_serverEnv_missing remote _ hf] at h
      simp at h
    | some rc =>
      rw [GetNamespace_serverEnv_found remote _ rc hf] at h
      rw [if_pos (show Namespace.name ⟨rc.name, rc.metadata⟩ =
        candidateNamespace r.metadata.repository.name
        from findByName_name remote _ rc hf)] at h
      exact ih acc names h

/-! ## The happy path of `ListNamespaces` -/

theorem filterLoop_no_error (reg : String) (records : List otcNamespace)
    (acc : List Namespace) : (filterLoop reg acc records).2 = none := by
  induction records generalizing acc with
  | nil => rfl
  | cons nd rest ih =>
    rw [filterLoop]
    cases goRegexpMatchString reg nd.name with
    | error e => rfl
    | ok b => exact ih _

theorem listNamespaces_happy (env : RemoteEnv) (q : String) (resp : Response)
    (records : List otcNamespace) (items : List RegItem)
    (h1 : env.listReqErr = none) (h2 : env.listResult = .ok resp)
    (h3 : 200 ≤ resp.statusCode) (h4 : resp.statusCode < 300)
    (h5 : resp.readErr = none)
    (h6 : env.unmarshalList resp.body = .ok ⟨records⟩)
    (hp : parseItems (".*" ++ stripSpaces q ++ ".*").data = some items) :
    ListNamespaces env ⟨q⟩ =
      ((records.filterMap (fun nd =>
          if matchItems items nd.name.data then some ⟨nd.name, nd.metadata⟩ else none),
        none), [Request.listNs]) := by
  simp only [ListNamespaces, h1, h2, h5, h6]
  rw [if_neg (by omega)]
  rw [filterLoop_parsed _ _ hp]
  simp

theorem regData_wrapped (q : String) :
    (".*" ++ stripSpaces q ++ ".*").data =
      '.' :: '*' :: ((stripSpaces q).data ++ ['.', '*']) := by
  simp [String.data_append]

theorem filterMap_some_eq_map (records : List otcNamespace) :
    records.filterMap (fun nd => some (⟨nd.name, nd.metadata⟩ : Namespace)) =
      records.map (fun nd => ⟨nd.name, nd.metadata⟩) := by
  induction records with
  | nil => rfl
  | cons nd rest ih => simp [List.filterMap_cons, ih]

/-! ## Concrete environments used by witnesses and counterexamples -/

/-- A resource carrying only a repository name. -/
def resOf (s : String) : Resource := ⟨⟨⟨s⟩⟩⟩

/-- An environment whose remote behaves like the adapter's unit-test mock:
listing yields the given records, every namespace lookup yields 200 with an
empty JSON object (decoding to the zero record), and creation succeeds. -/
def mockEnv (records : List otcNamespace) : RemoteEnv where
  listReqErr := none
  listResult := .ok ⟨200, "BODY", none⟩
  getReqErr := fun _ => none
  getResult := fun _ => .ok ⟨200, "{}", none⟩
  createReqErr := none
  createResult := fun _ => .ok ⟨200, "", none⟩
  unmarshalList := fun _ => .ok ⟨records⟩
  unmarshalNs := fun _ => .ok (freshRecord "")

/-- The mock environment with every remote call answering status 500. -/
def failEnv : RemoteEnv :=
  { mockEnv [] with
    listResult := .ok ⟨500, "boom", none⟩
    createResult := fun _ => .ok ⟨500, "boom", none⟩ }

/-- The mock environment with the transport failing outright. -/
def downEnv : RemoteEnv :=
  { mockEnv [] with listResult := .error "connection refused" }

/-! ## Claims -/

/-- C9: `healthCheck()` always returns the healthy status with no error and
issues no remote request, whatever the adapter's environment. -/
theorem healthCheck_always_healthy (env : RemoteEnv) :
    HealthCheck env = ((Healthy, none), []) := rfl

/-- C10: whenever `listNamespaces` returns an error — request construction,
transport, non-2xx status, body read, or decode failure — the accompanying
namespace list is empty; partial results occur only on the error-free
malformed-pattern path. -/
theorem listNamespaces_error_implies_empty (env : RemoteEnv) (q : NamespaceQuery)
    (h : (ListNamespaces env q).1.2.isSome = true) :
    (ListNamespaces env q).1.1 = [] := by
  cases h1 : env.listReqErr with
  | some e => simp [ListNamespaces, h1]
  | none =>
    cases h2 : env.listResult with
    | error e => simp [ListNamespaces, h1, h2]
    | ok resp =>
      by_cases h3 : 300 ≤ resp.statusCode ∨ resp.statusCode < 200
      · simp [ListNamespaces, h1, h2, h3]
      · cases h5 : resp.readErr with
        | some e => simp [ListNamespaces, h1, h2, h3, h5]
        | none =>
          cases h6 : env.unmarshalList resp.body with
          | error e => simp [ListNamespaces, h1, h2, h3, h5, h6]
          | ok nsData =>
            exact absurd h
              (by simp [ListNamespaces, h1, h2, h3, h5, h6, filterLoop_no_error])

/-- C10 witness: a transport failure yields an error with an empty list. -/
theorem listNamespaces_error_implies_empty_witness :
    ((ListNamespaces downEnv ⟨""⟩).1.2).isSome = true ∧
    (ListNamespaces downEnv ⟨""⟩).1.1 = [] :=
  ⟨rfl, listNamespaces_error_implies_empty downEnv ⟨""⟩ rfl⟩

/-- C6: against a conforming remote, looking up a name that is not present
yields the sentinel value together with the 404 lookup error — a failure,
never a clean success carrying an empty-fielded namespace. -/
theorem getNamespace_absent_yields_error (remote : List otcNamespace) (n : String)
    (h : findByName remote n = none) :
    GetNamespace (serverEnv remote) n =
      ((nsSentinel, some (statusErr 404 "not found")), [Request.getNs n]) :=
  GetNamespace_serverEnv_missing remote n h

/-- C6 witness: the lookup of "missing" on an empty remote errors. -/
theorem getNamespace_absent_yields_error_witness :
    findByName [] "missing" = none ∧
    GetNamespace (serverEnv []) "missing" =
      ((nsSentinel, some (statusErr 404 "not found")), [Request.getNs "missing"]) :=
  ⟨rfl, getNamespace_absent_yields_error [] "missing" rfl⟩

/-- C5: a status outside [200,300) makes `listNamespaces` abort after its
single request with the `[code][body]` error carrying the status and the raw
body, makes the create step abort at the first failing namespace with the
same error shape and no further requests, and `prepareForPush` returns the
create step's error as its own. -/
theorem non2xx_status_error_carries_code_and_body :
    (∀ env q resp, env.listReqErr = none → env.listResult = .ok resp →
      (300 ≤ resp.statusCode ∨ resp.statusCode < 200) →
      ListNamespaces env q =
        (([], some (statusErr resp.statusCode resp.body)), [Request.listNs])) ∧
    (∀ env n rest resp, env.createReqErr = none → env.createResult n = .ok resp →
      (300 ≤ resp.statusCode ∨ resp.statusCode < 200) →
      prepCreate env (n :: rest) =
        (some (statusErr resp.statusCode resp.body), [Request.createNs n])) ∧
    (∀ env resources names, (prepCollect env resources []).1 = .ok names →
      (PrepareForPush env resources).1 = (prepCreate env names).1) := by
  refine ⟨?_, ?_, ?_⟩
  · intro env q resp h1 h2 h3
    simp only [ListNamespaces, h1, h2]
    rw [if_pos h3]
  · intro env n rest resp h1 h2 h3
    have hcr : createResp env n = some (statusErr resp.statusCode resp.body) := by
      simp only [createResp, h2]
      rw [if_pos h3]
    simp only [prepCreate, h1, hcr]
  · intro env resources names hc
    simp only [PrepareForPush]
    rw [hc]

/-- C5 witness: a 500 response aborts both operations with "[500][boom]". -/
theorem non2xx_status_error_witness :
    ListNamespaces failEnv ⟨""⟩ =
      (([], some (statusErr 500 "boom")), [Request.listNs]) ∧
    prepCreate failEnv ["a"] =
      (some (statusErr 500 "boom"), [Request.createNs "a"]) ∧
    (PrepareForPush failEnv []).1 = (prepCreate failEnv []).1 := by
  refine ⟨?_, ?_, ?_⟩
  · exact non2xx_status_error_carries_code_and_body.1 failEnv ⟨""⟩
      ⟨500, "boom", none⟩ rfl rfl (by decide)
  · exact non2xx_status_error_carries_code_and_body.2.1 failEnv "a" []
      ⟨500, "boom", none⟩ rfl rfl (by decide)
  · exact non2xx_status_error_carries_code_and_body.2.2 failEnv [] [] rfl

/-- C7: when the pattern built from the query fails to compile, the loop
returns the namespaces accumulated so far — necessarily none, because the
compile failure already strikes at the first record — with a nil error,
instead of aborting with the pattern error. -/
theorem listNamespaces_malformed_pattern_swallowed (env : RemoteEnv) (q : String)
    (resp : Response) (nsData : otcNamespaceList)
    (h1 : env.listReqErr = none) (h2 : env.listResult = .ok resp)
    (h3 : 200 ≤ resp.statusCode) (h4 : resp.statusCode < 300)
    (h5 : resp.readErr = none) (h6 : env.unmarshalList resp.body = .ok nsData)
    (hbad : parseItems (".*" ++ stripSpaces q ++ ".*").data = none) :
    (ListNamespaces env ⟨q⟩).1 = ([], none) := by
  simp only [ListNamespaces, h1, h2, h5, h6]
  rw [if_neg (by omega)]
  exact filterLoop_badPattern _ hbad _ _

/-- C7 witness: the query "(" yields the malformed pattern ".*(.*"; the one
remote record is dropped and no error is reported. -/
theorem listNamespaces_malformed_pattern_swallowed_witness :
    (ListNamespaces (mockEnv [freshRecord "abc"]) ⟨"("⟩).1 = ([], none) :=
  listNamespaces_malformed_pattern_swallowed (mockEnv [freshRecord "abc"]) "("
    ⟨200, "BODY", none⟩ ⟨[freshRecord "abc"]⟩ rfl rfl (by decide) (by decide) rfl rfl
    (by decide)

/-- C1 counterexample: the claim demands substring filtering by the
whitespace-stripped query.  At query "a.c" the code's regex keeps the remote
name "abc", which the claim excludes (no "a.c" substring); at the query
"a<TAB>b" the code keeps the tab (only spaces are stripped) and drops the
remote name "ab", which the claim keeps. -/
theorem listNamespaces_substring_claim_cex :
    (ListNamespaces (mockEnv [freshRecord "abc"]) ⟨"a.c"⟩).1.1 ≠
      claimedListResult "a.c" [freshRecord "abc"] ∧
    (ListNamespaces (mockEnv [freshRecord "ab"]) ⟨"a\tb"⟩).1.1 ≠
      claimedListResult "a\tb" [freshRecord "ab"] := by
  constructor
  · have hp : parseItems (".*" ++ stripSpaces "a.c" ++ ".*").data =
        some [(Atom.dot, true), (Atom.lit 'a', false), (Atom.dot, false),
              (Atom.lit 'c', false), (Atom.dot, true)] := by decide
    have hmain := listNamespaces_happy (mockEnv [freshRecord "abc"]) "a.c"
      ⟨200, "BODY", none⟩ [freshRecord "abc"] _ rfl rfl (by decide) (by decide)
      rfl rfl hp
    have hm : matchItems [(Atom.dot, true), (Atom.lit 'a', false), (Atom.dot, false),
        (Atom.lit 'c', false), (Atom.dot, true)] (freshRecord "abc").name.data = true := by
      show matchItems _ ['a', 'b', 'c'] = true
      simp [matchItems, atomMatches]
    have hL : (ListNamespaces (mockEnv [freshRecord "abc"]) ⟨"a.c"⟩).1.1 =
        [⟨(freshRecord "abc").name, (freshRecord "abc").metadata⟩] := by
      rw [hmain]
      simp [List.filterMap_cons, hm]
    have hR : claimedListResult "a.c" [freshRecord "abc"] = [] := by decide
    rw [hL, hR]
    simp
  · have hp2 : parseItems (".*" ++ stripSpaces "a\tb" ++ ".*").data =
        some ((Atom.dot, true) ::
          (litItems ['a', '\t', 'b'] ++ [(Atom.dot, true)])) := by decide
    have hmain2 := listNamespaces_happy (mockEnv [freshRecord "ab"]) "a\tb"
      ⟨200, "BODY", none⟩ [freshRecord "ab"] _ rfl rfl (by decide) (by decide)
      rfl rfl hp2
    have hm2 : matchItems [(Atom.dot, true), (Atom.lit 'a', false),
        (Atom.lit '\t', false), (Atom.lit 'b', false), (Atom.dot, true)]
        (freshRecord "ab").name.data = false := by
      have hw := matchItems_wrapped ['a', '\t', 'b'] (freshRecord "ab").name.data
      have hcs : containsSub (freshRecord "ab").name.data ['a', '\t', 'b'] = false := by
        decide
      simpa using hw.trans hcs
    have hL2 : (ListNamespaces (mockEnv [freshRecord "ab"]) ⟨"a\tb"⟩).1.1 = [] := by
      rw [hmain2]
      simp [List.filterMap_cons, hm2]
    have hR2 : claimedListResult "a\tb" [freshRecord "ab"] =
        [⟨"ab", (freshRecord "ab").metadata⟩] := by decide
    rw [hL2, hR2]
    simp

/-- C1 (amended): the code filters with the regular expression
`.*<space-stripped query>.*`.  For every query whose space-stripped form
consists only of characters without regular-expression meaning, the result is
exactly the subset of the remote records whose name contains the
space-stripped query as a contiguous substring, in the remote order, with no
error; the empty query keeps every record. -/
theorem listNamespaces_filters_by_substring (env : RemoteEnv) (q : String)
    (resp : Response) (records : List otcNamespace)
    (h1 : env.listReqErr = none) (h2 : env.listResult = .ok resp)
    (h3 : 200 ≤ resp.statusCode) (h4 : resp.statusCode < 300)
    (h5 : resp.readErr = none)
    (h6 : env.unmarshalList resp.body = .ok ⟨records⟩)
    (hq : (stripSpaces q).data.all isLiteralChar = true) :
    (ListNamespaces env ⟨q⟩).1 =
      (records.filterMap (fun nd =>
        if containsSub nd.name.data (stripSpaces q).data
        then some ⟨nd.name, nd.metadata⟩ else none), none) ∧
    (q = "" → (ListNamespaces env ⟨q⟩).1 =
      (records.map (fun nd => ⟨nd.name, nd.metadata⟩), none)) := by
  have hp : parseItems (".*" ++ stripSpaces q ++ ".*").data =
      some ((Atom.dot, true) ::
        (litItems (stripSpaces q).data ++ [(Atom.dot, true)])) := by
    rw [regData_wrapped]
    exact parseItems_wrapped _ hq
  have hmain := listNamespaces_happy env q resp records _ h1 h2 h3 h4 h5 h6 hp
  have hfst : (ListNamespaces env ⟨q⟩).1 =
      (records.filterMap (fun nd =>
        if containsSub nd.name.data (stripSpaces q).data
        then some ⟨nd.name, nd.metadata⟩ else none), none) := by
    rw [hmain]
    simp only [matchItems_wrapped]
  refine ⟨hfst, fun hq0 => ?_⟩
  subst hq0
  rw [hfst]
  have hnil : (stripSpaces "").data = ([] : List Char) := rfl
  simp [hnil, containsSub_nil, filterMap_some_eq_map]

/-- C1 witness: the spec's own example inputs — query "dev team" is cleaned
to "devteam" and keeps exactly the matching remote name. -/
theorem listNamespaces_filters_by_substring_witness :
    (ListNamespaces (mockEnv [freshRecord "devteam", freshRecord "prod"])
        ⟨"dev team"⟩).1 =
      ([⟨"devteam", (freshRecord "devteam").metadata⟩], none) := by
  have h := (listNamespaces_filters_by_substring
    (mockEnv [freshRecord "devteam", freshRecord "prod"]) "dev team"
    ⟨200, "BODY", none⟩ [freshRecord "devteam", freshRecord "prod"]
    rfl rfl (by decide) (by decide) rfl rfl (by decide)).1
  rw [h]
  decide

/-- C2: on a conforming remote without namespace "newns", the per-candidate
lookup answers 404 and `PrepareForPush` aborts with that lookup error,
issuing no create request — whereas the claim (and the spec's stated design)
has the not-found candidate treated as missing and created. -/
theorem prepareForPush_aborts_on_lookup_404 :
    PrepareForPush (serverEnv []) [resOf "newns/repo"] =
      (some (statusErr 404 "not found"), [Request.getNs "newns"]) ∧
    countCreate "newns" (PrepareForPush (serverEnv []) [resOf "newns/repo"]).2 = 0 := by
  decide

/-- C3: against a conforming remote, if `prepareForPush` succeeds, running it
again on the remote state left behind by its requests succeeds as well, and
the second run issues no create request (every namespace already exists). -/
theorem prepareForPush_idempotent (remote : List otcNamespace)
    (resources : List Resource)
    (h1 : (PrepareForPush (serverEnv remote) resources).1 = none) :
    (PrepareForPush (serverEnv
        (applyTrace remote (PrepareForPush (serverEnv remote) resources).2))
        resources).1 = none ∧
    ((PrepareForPush (serverEnv
        (applyTrace remote (PrepareForPush (serverEnv remote) resources).2))
        resources).2.all (fun r => !r.isCreate)) = true := by
  have htr : (PrepareForPush (serverEnv remote) resources).2.all
      (fun r => !r.isCreate) = true := by
    simp only [PrepareForPush]
    cases hc : (prepCollect (serverEnv remote) resources []).1 with
    | error e =>
      simpa using prepCollect_trace_noCreate (serverEnv remote) resources []
    | ok names =>
      have hnames := prepCollect_serverEnv_ok remote resources [] names hc
      subst hnames
      simpa [prepCreate] using
        prepCollect_trace_noCreate (serverEnv remote) resources []
  have hremote := applyTrace_noCreate _ remote htr
  rw [hremote]
  exact ⟨h1, htr⟩

/-- C3 witness: one existing namespace, one resource under it. -/
theorem prepareForPush_idempotent_witness :
    (PrepareForPush (serverEnv [freshRecord "a"]) [resOf "a/r1"]).1 = none ∧
    (PrepareForPush (serverEnv (applyTrace [freshRecord "a"]
        (PrepareForPush (serverEnv [freshRecord "a"]) [resOf "a/r1"]).2))
      [resOf "a/r1"]).1 = none :=
  ⟨by decide,
   (prepareForPush_idempotent [freshRecord "a"] [resOf "a/r1"] (by decide)).1⟩

/-- C4 counterexample: for the repository name "/repo" the code derives the
candidate as the FIRST segment of the slash-split — the empty string — not
the first non-empty segment "repo"; observably, the only lookup it issues is
for the empty name. -/
theorem prepareForPush_first_segment_cex :
    candidateNamespace "/repo" = "" ∧
    firstNonEmptySegment "/repo" = "repo" ∧
    (PrepareForPush (serverEnv []) [resOf "/repo"]).2 = [Request.getNs ""] := by
  decide

/-- C4 (amended): the candidate namespace is the first segment — the prefix
before the first slash, possibly empty — of each resource's repository name;
candidates are deduplicated, at most one create request is issued per
distinct name, and every create request is for some resource's candidate. -/
theorem prepareForPush_create_once_per_candidate (env : RemoteEnv)
    (resources : List Resource) (n : String) :
    countCreate n (PrepareForPush env resources).2 ≤ 1 ∧
    (Request.createNs n ∈ (PrepareForPush env resources).2 →
      ∃ r ∈ resources, candidateNamespace r.metadata.repository.name = n) := by
  simp only [PrepareForPush]
  cases hc : (prepCollect env resources []).1 with
  | error e =>
    have h0 : countCreate n (prepCollect env resources []).2 = 0 :=
      countCreate_noCreate n _ (prepCollect_trace_noCreate env resources [])
    constructor
    · simp [h0]
    · intro hm
      have := List.all_eq_true.mp
        (prepCollect_trace_noCreate env resources []) _ hm
      simp [Request.isCreate] at this
  | ok names =>
    obtain ⟨hnodup, hmem⟩ :=
      prepCollect_ok_spec env resources [] names hc List.nodup_nil
    have h0 : countCreate n (prepCollect env resources []).2 = 0 :=
      countCreate_noCreate n _ (prepCollect_trace_noCreate env resources [])
    constructor
    · show countCreate n
        ((prepCollect env resources []).2 ++ (prepCreate env names).2) ≤ 1
      rw [countCreate_append, h0]
      simpa using prepCreate_count_le_one env names hnodup n
    · intro hm
      have hm2 : Request.createNs n ∈
          (prepCollect env resources []).2 ++ (prepCreate env names).2 := hm
      rcases List.mem_append.mp hm2 with hm3 | hm4
      · have := List.all_eq_true.mp
          (prepCollect_trace_noCreate env resources []) _ hm3
        simp [Request.isCreate] at this
      · have hn := prepCreate_mem env names n hm4
        rcases hmem n hn with h9 | hr
        · simp at h9
        · exact hr

/-- C4 witness: the spec's example resources; the create of "a" happens once
and "a" is a derived candidate. -/
theorem prepareForPush_create_once_per_candidate_witness :
    countCreate "a" (PrepareForPush (mockEnv [])
      [resOf "a/repo1", resOf "a/repo2", resOf "b/repo3"]).2 ≤ 1 ∧
    ∃ r ∈ [resOf "a/repo1", resOf "a/repo2", resOf "b/repo3"],
      candidateNamespace r.metadata.repository.name = "a" := by
  obtain ⟨h1, h2⟩ := prepareForPush_create_once_per_candidate (mockEnv [])
    [resOf "a/repo1", resOf "a/repo2", resOf "b/repo3"] "a"
  exact ⟨h1, h2 (by decide)⟩

/-- C8: every namespace `listNamespaces` hands back translates one decoded
remote record, with exactly the record's name and with the fixed seven
provider metadata keys; likewise for every successful `getNamespace`. -/
theorem returned_namespace_shape :
    (∀ env q ns, ns ∈ (ListNamespaces env q).1.1 →
      ns.metadata.map Prod.fst = metadataKeys ∧
      ∃ resp nsData, env.listResult = .ok resp ∧
        env.unmarshalList resp.body = .ok nsData ∧
        ∃ nd ∈ nsData.Namespace, ns.name = nd.name ∧ ns.metadata = nd.metadata) ∧
    (∀ env n nsr, (GetNamespace env n).1 = (nsr, none) →
      nsr.metadata.map Prod.fst = metadataKeys ∧
      ∃ resp nd, env.getResult n = .ok resp ∧ env.unmarshalNs resp.body = .ok nd ∧
        nsr.name = nd.name ∧ nsr.metadata = nd.metadata) := by
  constructor
  · intro env q ns hns
    cases h1 : env.listReqErr with
    | some e => simp [ListNamespaces, h1] at hns
    | none =>
      cases h2 : env.listResult with
      | error e => simp [ListNamespaces, h1, h2] at hns
      | ok resp =>
        by_cases h3 : 300 ≤ resp.statusCode ∨ resp.statusCode < 200
        · simp [ListNamespaces, h1, h2, h3] at hns
        · cases h5 : resp.readErr with
          | some e => simp [ListNamespaces, h1, h2, h3, h5] at hns
          | none =>
            cases h6 : env.unmarshalList resp.body with
            | error e => simp [ListNamespaces, h1, h2, h3, h5, h6] at hns
            | ok nsData =>
              simp only [ListNamespaces, h1, h2, h5, h6, if_neg h3] at hns
              rcases filterLoop_mem _ _ _ _ hns with h9 | ⟨nd, hmem, hns_eq⟩
              · simp at h9
              · subst hns_eq
                exact ⟨by simp [otcNamespace.metadata, metadataKeys],
                  resp, nsData, rfl, h6, nd, hmem, rfl, rfl⟩
  · intro env n nsr h
    cases h1 : env.getReqErr n with
    | some e => simp [GetNamespace, h1, Prod.mk.injEq] at h
    | none =>
      simp only [GetNamespace, h1] at h
      cases h2 : env.getResult n with
      | error e => simp [getNamespaceResp, h2, Prod.mk.injEq] at h
      | ok resp =>
        by_cases h3 : 300 ≤ resp.statusCode ∨ resp.statusCode < 200
        · simp [getNamespaceResp, h2, h3, Prod.mk.injEq] at h
        · cases h5 : resp.readErr with
          | some e => simp [getNamespaceResp, h2, h3, h5, Prod.mk.injEq] at h
          | none =>
            cases h6 : env.unmarshalNs resp.body with
            | error e => simp [getNamespaceResp, h2, h3, h5, h6, Prod.mk.injEq] at h
            | ok nd =>
              simp only [getNamespaceResp, h2, h5, h6, if_neg h3,
                Prod.mk.injEq, and_true] at h
              subst h
              exact ⟨by simp [otcNamespace.metadata, metadataKeys],
                resp, nd, rfl, h6, rfl, rfl⟩

/-- C8 witness: a listed namespace and a fetched namespace both carry the
seven fixed metadata keys. -/
theorem returned_namespace_shape_witness :
    ((⟨(freshRecord "abc").name, (freshRecord "abc").metadata⟩ : Namespace).metadata.map
        Prod.fst = metadataKeys) ∧
    ((⟨"x", (freshRecord "x").metadata⟩ : Namespace).metadata.map Prod.fst =
      metadataKeys) := by
  constructor
  · have hp : parseItems (".*" ++ stripSpaces "" ++ ".*").data =
        some ((Atom.dot, true) :: (litItems [] ++ [(Atom.dot, true)])) := by decide
    have hmain := listNamespaces_happy (mockEnv [freshRecord "abc"]) ""
      ⟨200, "BODY", none⟩ [freshRecord "abc"] _ rfl rfl (by decide) (by decide)
      rfl rfl hp
    have hm : matchItems [(Atom.dot, true), (Atom.dot, true)]
        (freshRecord "abc").name.data = true := by
      have hw := matchItems_wrapped [] ((freshRecord "abc").name.data)
      simpa using hw.trans (containsSub_nil _)
    have hns : (⟨(freshRecord "abc").name, (freshRecord "abc").metadata⟩ : Namespace) ∈
        (ListNamespaces (mockEnv [freshRecord "abc"]) ⟨""⟩).1.1 := by
      rw [hmain]
      simp [List.filterMap_cons, hm]
    exact (returned_namespace_shape.1 (mockEnv [freshRecord "abc"]) ⟨""⟩ _ hns).1
  · have hget : (GetNamespace (serverEnv [freshRecord "x"]) "x").1 =
        (⟨"x", (freshRecord "x").metadata⟩, none) := by decide
    exact (returned_namespace_shape.2 (serverEnv [freshRecord "x"]) "x" _ hget).1

end OTC
